import Mathlib

/-!
Verification of the rolling session-block aggregator implemented by
`get_claude_session_data_claude_monitor_exact` in
`scripts/context-monitor-generic.py`.

Shallow embedding conventions:
* Timestamps are modelled as integer seconds since the epoch (`Int`).  The
  Python code parses ISO-8601 strings into timezone-aware datetimes; the
  epoch is aligned to an hour boundary in UTC, so
  `replace(minute=0, second=0, microsecond=0)` is floor division by 3600.
* A raw JSONL line is modelled by `RawLine`, recording the outcome of the
  per-line processing the Python code performs: whether `json.loads`
  succeeds, whether `data.get('type') == 'assistant'`, the parsed timestamp
  (`none` covers both a missing/falsy timestamp string and an unparseable
  one, which raises and is swallowed by the per-line `except: continue`),
  the truthy message/request identifiers (`none` covers missing and falsy
  values; the `data.get("message_id") or message.get("id")` fallback chain
  is folded into the single field), and the `message.usage` token pair
  (`none` covers a missing or empty — hence falsy — usage dict).
* The float `cost_percent` is modelled exactly with rationals (`ℚ`).
* Reading several files in order is modelled by one concatenated line list;
  the dedup set is shared across the whole run exactly as in the code.
-/

/-- One element of `all_entries` as built by the ingestion loop:
`{'timestamp': …, 'input_tokens': …, 'output_tokens': …,
  'total_tokens': input + output, …}` (the `message_id`/`request_id`/`file`
bookkeeping fields are not read by any later step and are omitted). -/
structure UsageEntry where
  timestamp : Int
  input_tokens : Nat
  output_tokens : Nat
  total_tokens : Nat
deriving Repr, DecidableEq

/-- One element of `session_blocks`: `{'id': start_time.isoformat(),
'start_time': …, 'end_time': start_time + 5h, 'entries': …,
'total_tokens': …, 'is_active': False}`; `actual_end_time` is added when the
block is finalized.  `id` is modelled by the `start_time` instant itself
(`isoformat` is injective on instants). -/
structure UsageBlock where
  id : Int
  start_time : Int
  end_time : Int
  entries : List UsageEntry
  total_tokens : Nat
  is_active : Bool
  actual_end_time : Option Int
deriving Repr, DecidableEq

/-- Outcome of processing one raw JSONL line, see the header comment. -/
structure RawLine where
  parses : Bool
  type_assistant : Bool
  timestamp : Option Int
  message_id : Option String
  request_id : Option String
  usage : Option (Nat × Nat)
deriving Repr, DecidableEq

/-- The dictionary returned by `get_claude_session_data_claude_monitor_exact`:
either `{}` (no data), the active-session record, or the expired record.
`resetTime` carries the `end_time` instant whose local `HH:MM` rendering the
code returns; `costPercent` is the float `cost_percent` as a rational. -/
inductive SessionResult where
  | noData : SessionResult
  | active (resetTime : Int) (costPercent : ℚ) (tokensUsed : Nat)
      (blockId : Int) (sessionBlocks : Nat) : SessionResult
  | expired (costPercent : ℚ) (tokensUsed : Nat) : SessionResult
deriving Repr, DecidableEq

/-- `unique_hash = f"{message_id}:{request_id}" if message_id and request_id
else None`. -/
def hashOf (l : RawLine) : Option String :=
  match l.message_id, l.request_id with
  | some m, some r => some (m ++ ":" ++ r)
  | _, _ => none

/-- `if unique_hash and unique_hash in processed_hashes` — the dedup test. -/
def seenDup (seen : List String) : Option String → Bool
  | some s => decide (s ∈ seen)
  | none => false

/-- The tail of the ingestion loop body: skip when
`input_tokens == 0 and output_tokens == 0`, otherwise append the entry to
`all_entries` and, when a `unique_hash` exists, add it to
`processed_hashes`. -/
def keepEntry (st : List String × List UsageEntry) (s? : Option String)
    (t : Int) (inp outp : Nat) : List String × List UsageEntry :=
  if inp = 0 ∧ outp = 0 then st
  else
    ((match s? with | some s => st.1 ++ [s] | none => st.1),
     st.2 ++ [{ timestamp := t, input_tokens := inp, output_tokens := outp,
                total_tokens := inp + outp }])

/-- One iteration of the per-line ingestion loop (state =
`(processed_hashes, all_entries)`); the checks appear in source order:
JSON decoding, `type == 'assistant'`, timestamp presence/parse, the
`timestamp >= cutoff_time` lookback filter (`cutoff_time = now - 192h`),
the dedup test, usage truthiness, and the zero-token filter. -/
def ingestStep (now : Int) (st : List String × List UsageEntry)
    (l : RawLine) : List String × List UsageEntry :=
  if l.parses = false then st
  else if l.type_assistant = false then st
  else
    match l.timestamp with
    | none => st
    | some t =>
      if now - 691200 ≤ t then
        if seenDup st.1 (hashOf l) then st
        else
          match l.usage with
          | some (inp, outp) => keepEntry st (hashOf l) t inp outp
          | none => st
      else st

/-- The whole ingestion loop: fold over all lines of all files in order,
starting from an empty dedup set and an empty `all_entries`. -/
def ingestState (now : Int) (lines : List RawLine) :
    List String × List UsageEntry :=
  lines.foldl (ingestStep now) ([], [])

/-- `all_entries` after ingestion. -/
def ingest (now : Int) (lines : List RawLine) : List UsageEntry :=
  (ingestState now lines).2

/-- Stable insertion of an entry into a timestamp-sorted list (an entry is
placed after all entries with an equal or smaller timestamp). -/
def insertByTime (e : UsageEntry) : List UsageEntry → List UsageEntry
  | [] => [e]
  | x :: xs =>
    if e.timestamp < x.timestamp then e :: x :: xs else x :: insertByTime e xs

/-- `all_entries.sort(key=lambda x: x['timestamp'])` — a stable sort by
timestamp (insertion sort is stable, like Python's Timsort). -/
def sortEntries (l : List UsageEntry) : List UsageEntry :=
  l.foldl (fun acc e => insertByTime e acc) []

/-- `entry_time.replace(minute=0, second=0, microsecond=0)`: floor the
instant to its hour (the epoch is hour-aligned in UTC). -/
def hourFloor (t : Int) : Int :=
  (t.fdiv 3600) * 3600

/-- A fresh rolling block for an entry at time `t`:
start at the hour floor, `end_time = start_time + 5h`, no entries yet. -/
def emptyBlock (t : Int) : UsageBlock :=
  { id := hourFloor t, start_time := hourFloor t,
    end_time := hourFloor t + 18000, entries := [], total_tokens := 0,
    is_active := false, actual_end_time := none }

/-- `current_block['entries'].append(entry)` and
`current_block['total_tokens'] += entry['total_tokens']`. -/
def addEntry (b : UsageBlock) (e : UsageEntry) : UsageBlock :=
  { b with entries := b.entries ++ [e],
           total_tokens := b.total_tokens + e.total_tokens }

/-- The new rolling block created for `e`, with `e` appended to it (the loop
body creates the block and then unconditionally appends the entry). -/
def newBlock (e : UsageEntry) : UsageBlock :=
  addEntry (emptyBlock e.timestamp) e

/-- `current_block['entries'] and entry_time -
current_block['entries'][-1]['timestamp'] >= timedelta(hours=2)` — the
idle-gap clause of the new-block decision. -/
def gapTrigger (b : UsageBlock) (t : Int) : Bool :=
  match b.entries.getLast? with
  | some last => decide (7200 ≤ t - last.timestamp)
  | none => false

/-- Block finalization: record `actual_end_time` as the last entry's
timestamp. -/
def finalizeBlock (b : UsageBlock) : UsageBlock :=
  { b with actual_end_time := b.entries.getLast?.map (fun e => e.timestamp) }

/-- `if current_block and current_block['entries']: … append` — close the
current block into the finished list unless it is empty. -/
def pushBlock (blocks : List UsageBlock) (b : UsageBlock) :
    List UsageBlock :=
  if b.entries.isEmpty then blocks else blocks ++ [finalizeBlock b]

/-- The after-loop finalization of the last current block. -/
def closeOut (blocks : List UsageBlock) : Option UsageBlock →
    List UsageBlock
  | some b => pushBlock blocks b
  | none => blocks

/-- The block-construction loop over timestamp-sorted entries, carrying the
finished `session_blocks` and the nullable `current_block`.  The three-way
OR `should_create_new_block` condition is: no current block, or
`entry_time >= current_block['end_time']`, or the idle-gap clause. -/
def buildLoop (blocks : List UsageBlock) (cur : Option UsageBlock) :
    List UsageEntry → List UsageBlock
  | [] => closeOut blocks cur
  | e :: rest =>
    match cur with
    | none => buildLoop blocks (some (newBlock e)) rest
    | some b =>
      if decide (b.end_time ≤ e.timestamp) || gapTrigger b e.timestamp then
        buildLoop (pushBlock blocks b) (some (newBlock e)) rest
      else
        buildLoop blocks (some (addEntry b e)) rest

/-- `transform_to_blocks`: scan the sorted entries into session blocks. -/
def buildBlocks (entries : List UsageEntry) : List UsageBlock :=
  buildLoop [] none entries

/-- The active-marking condition: `block['end_time'] > now and
len(block['entries']) >= 3 and block['entries'] and
(now - block['entries'][-1]['timestamp']).total_seconds() <= 1800`. -/
def isActiveCond (now : Int) (b : UsageBlock) : Bool :=
  decide (now < b.end_time) && decide (3 ≤ b.entries.length) &&
  !b.entries.isEmpty &&
  (match b.entries.getLast? with
   | some last => decide (now - last.timestamp ≤ 1800)
   | none => false)

/-- The per-block body of the marking pass: set `is_active = True` when the
condition holds (it is never set back to `False`). -/
def markOne (now : Int) (b : UsageBlock) : UsageBlock :=
  if isActiveCond now b then { b with is_active := true } else b

/-- The marking pass over `session_blocks`. -/
def markActive (now : Int) (blocks : List UsageBlock) : List UsageBlock :=
  blocks.map (markOne now)

/-- `active_blocks = [b for b in session_blocks if b['is_active']]`. -/
def activeBlocks (now : Int) (blocks : List UsageBlock) : List UsageBlock :=
  (markActive now blocks).filter (fun b => b.is_active)

/-- `max(list, key=lambda x: x['start_time'])`: Python's `max` keeps the
first maximal element, replacing only on a strictly larger key. -/
def maxByStart (b : UsageBlock) (rest : List UsageBlock) : UsageBlock :=
  rest.foldl (fun best x =>
    if best.start_time < x.start_time then x else best) b

/-- Selection of the result record from the marked blocks: the latest
active block (state "active"), else the latest block (state "expired",
with the hardcoded `cost_percent = 100.0`), else `{}`. -/
def selectActive (now : Int) (blocks : List UsageBlock) : SessionResult :=
  let marked := markActive now blocks
  match marked.filter (fun b => b.is_active) with
  | a :: arest =>
    let cs := maxByStart a arest
    SessionResult.active cs.end_time
      ((cs.total_tokens : ℚ) / 88000 * 100) cs.total_tokens cs.id
      marked.length
  | [] =>
    match marked with
    | b :: brest =>
      SessionResult.expired 100 (maxByStart b brest).total_tokens
    | [] => SessionResult.noData

/-- The whole aggregator `get_claude_session_data_claude_monitor_exact`:
ingest the raw lines (with the 8-day lookback from `now`), return `{}` when
no entries survive, otherwise sort, build blocks, mark active blocks and
select the result.  The surrounding `try/except: return {}` and the
empty-file-list early return are subsumed by totality and the empty-lines
case. -/
def get_claude_session_data_claude_monitor_exact (now : Int)
    (lines : List RawLine) : SessionResult :=
  let entries := ingest now lines
  if entries.isEmpty then SessionResult.noData
  else selectActive now (buildBlocks (sortEntries entries))

/-- Statement-level predicate, following the spec's words about the derived
`usage_ratio`, amended to what the code computes: for an active result the
percentage is exactly `total_tokens / 88000 * 100` (raw and uncapped), while
for the expired fallback the code reports the constant `100.0`. -/
def costPercentPolicy : SessionResult → Prop
  | SessionResult.noData => True
  | SessionResult.active _ c tk _ _ => c = (tk : ℚ) / 88000 * 100
  | SessionResult.expired c _ => c = 100

/-- Statement-level predicate: every entry of the block lies in the
half-open window `[start_time, end_time)`. -/
def inWindow (b : UsageBlock) : Prop :=
  ∀ e ∈ b.entries, b.start_time ≤ e.timestamp ∧ e.timestamp < b.end_time

/-- A concrete entry carrying only input tokens. -/
def mkE (t : Int) (tok : Nat) : UsageEntry :=
  { timestamp := t, input_tokens := tok, output_tokens := 0,
    total_tokens := tok }

/-- A well-formed assistant line: 500 input tokens at the epoch, message id
`m`, request id `r`. -/
def exLine : RawLine :=
  { parses := true, type_assistant := true, timestamp := some 0,
    message_id := some "m", request_id := some "r", usage := some (500, 0) }

/-- The same line with a zero-token usage record. -/
def exLineZero : RawLine := { exLine with usage := some (0, 0) }

/-- The same dedup key with different token counts. -/
def exLineOther : RawLine := { exLine with usage := some (7, 7) }

/-- A line on which JSON decoding fails. -/
def exLineBad : RawLine :=
  { parses := false, type_assistant := false, timestamp := none,
    message_id := none, request_id := none, usage := none }

/-- Three 500-token entries at 10:15, 10:45 and 11:10 of the epoch day
(the concrete scenario of spec §8.7). -/
def exEntries1 : List UsageEntry :=
  [mkE 36900 500, mkE 38700 500, mkE 40200 500]

/-- Six entries forming two rolling blocks: three at the epoch and three at
the 5-hour mark. -/
def exEntries2 : List UsageEntry :=
  [mkE 0 10, mkE 10 10, mkE 20 10, mkE 18000 10, mkE 18010 10,
   mkE 18020 10]

/-- The single block built from `exEntries1`. -/
def exBlock3 : UsageBlock :=
  { id := 36000, start_time := 36000, end_time := 54000,
    entries := exEntries1, total_tokens := 1500, is_active := false,
    actual_end_time := none }


/-! ### Arithmetic facts about the hour floor -/

theorem hourFloor_le (t : Int) : hourFloor t ≤ t := by
  unfold hourFloor
  rw [Int.fdiv_eq_ediv _ (by norm_num)]
  exact Int.ediv_mul_le t (by norm_num)

theorem lt_hourFloor_add (t : Int) : t < hourFloor t + 3600 := by
  unfold hourFloor
  rw [Int.fdiv_eq_ediv _ (by norm_num)]
  have h1 := Int.ediv_add_emod t 3600
  have h2 := Int.emod_lt_of_pos t (b := 3600) (by norm_num)
  omega

/-! ### The marking pass -/

theorem markOne_is_active (now : Int) (b : UsageBlock)
    (hb : b.is_active = false) :
    (markOne now b).is_active = isActiveCond now b := by
  unfold markOne
  by_cases h : isActiveCond now b <;> simp [h, hb]

theorem activeBlocks_len (now : Int) (bs : List UsageBlock)
    (hall : ∀ b ∈ bs, b.is_active = false) :
    ((markActive now bs).filter (fun b => b.is_active)).length
      = (bs.filter (fun b => isActiveCond now b)).length := by
  induction bs with
  | nil => rfl
  | cons b bs ih =>
    have hb : b.is_active = false := hall b (by simp)
    have ht : ∀ x ∈ bs, x.is_active = false :=
      fun x hx => hall x (by simp [hx])
    by_cases hc : isActiveCond now b <;>
      simp [markActive, List.filter_cons, markOne_is_active now b hb, hc,
        ← ih ht, markActive]

/-! ### Per-line ingestion lemmas -/

theorem ingestStep_seen (now : Int) (st : List String × List UsageEntry)
    (l : RawLine) (s : String) (hs : hashOf l = some s)
    (hmem : s ∈ st.1) : ingestStep now st l = st := by
  have hsd : seenDup st.1 (hashOf l) = true := by
    rw [hs]; simpa [seenDup] using hmem
  unfold ingestStep
  repeat' split <;> simp_all

theorem ingestStep_zero (now : Int) (st : List String × List UsageEntry)
    (l : RawLine) (hz : l.usage = some (0, 0)) :
    ingestStep now st l = st := by
  unfold ingestStep
  repeat' split <;> simp_all [keepEntry]

theorem ingestStep_skip (now : Int) (st : List String × List UsageEntry)
    (l : RawLine)
    (h : l.parses = false ∨ l.type_assistant = false ∨
      l.timestamp = none ∨ l.usage = none) :
    ingestStep now st l = st := by
  unfold ingestStep
  repeat' split <;> simp_all

theorem ingestState_append (now : Int) (l1 l2 : List RawLine) :
    ingestState now (l1 ++ l2)
      = l2.foldl (ingestStep now) (ingestState now l1) := by
  unfold ingestState
  rw [List.foldl_append]

theorem ingest_remove_line (now : Int) (pre post : List RawLine)
    (l : RawLine) (h : ∀ st, ingestStep now st l = st) :
    ingestState now (pre ++ l :: post) = ingestState now (pre ++ post) := by
  rw [ingestState_append, ingestState_append]
  simp only [List.foldl_cons, h]

/-! ### Claims C1, C9, C10 -/

/-- C1 counterexample: on a run whose latest block is expired with 500
total tokens, the aggregator returns the hardcoded `cost_percent = 100.0`,
not `500 / 88000 * 100` as the claim states for the expired fallback. -/
theorem C1_counterexample :
    get_claude_session_data_claude_monitor_exact 100000 [exLine]
        = SessionResult.expired 100 500 ∧
      (100 : ℚ) ≠ (500 : ℚ) / 88000 * 100 := by
  refine ⟨rfl, by norm_num⟩

/-- C1 (amended): the derived percentage equals
`block.total_tokens / 88000 * 100`, raw and uncapped, for the returned
active block; for the expired fallback the aggregator reports the constant
`100.0` regardless of the block's totals. -/
theorem C1_amended_cost_fields (now : Int) (lines : List RawLine) :
    costPercentPolicy
      (get_claude_session_data_claude_monitor_exact now lines) := by
  unfold get_claude_session_data_claude_monitor_exact
  dsimp only
  split
  · trivial
  · unfold selectActive
    dsimp only
    split
    · simp [costPercentPolicy]
    · split
      · simp [costPercentPolicy]
      · trivial

/-- C9: an event whose usage record is `input_tokens = 0, output_tokens = 0`
is discarded during ingestion — removing its line from the run changes
neither `all_entries` nor the built blocks, so it never appears in any
block's `entries` and contributes nothing to any `total_tokens`. -/
theorem C9_zero_token_filtered (now : Int) (pre post : List RawLine)
    (l : RawLine) (hz : l.usage = some (0, 0)) :
    ingest now (pre ++ l :: post) = ingest now (pre ++ post) ∧
      buildBlocks (sortEntries (ingest now (pre ++ l :: post)))
        = buildBlocks (sortEntries (ingest now (pre ++ post))) := by
  have h : ingestState now (pre ++ l :: post)
      = ingestState now (pre ++ post) :=
    ingest_remove_line now pre post l
      (fun st => ingestStep_zero now st l hz)
  unfold ingest
  rw [h]
  exact ⟨rfl, rfl⟩

/-- C9 witness at a concrete zero-token line. -/
theorem C9_witness :
    ingest 1000 ([exLine] ++ exLineZero :: [])
        = ingest 1000 ([exLine] ++ []) ∧
      buildBlocks (sortEntries (ingest 1000 ([exLine] ++ exLineZero :: [])))
        = buildBlocks (sortEntries (ingest 1000 ([exLine] ++ []))) :=
  C9_zero_token_filtered 1000 [exLine] [] exLineZero rfl

/-- C10: the aggregator is a total function of its input; a line that fails
JSON decoding, is not an assistant record, lacks a parseable timestamp, or
has no usage object is skipped without affecting the result, and an empty
event list yields the ordinary no-data outcome rather than an error. -/
theorem C10_never_fails (now : Int) (pre post : List RawLine) (l : RawLine)
    (h : l.parses = false ∨ l.type_assistant = false ∨
      l.timestamp = none ∨ l.usage = none) :
    get_claude_session_data_claude_monitor_exact now (pre ++ l :: post)
        = get_claude_session_data_claude_monitor_exact now (pre ++ post) ∧
      get_claude_session_data_claude_monitor_exact now []
        = SessionResult.noData := by
  have hst : ingestState now (pre ++ l :: post)
      = ingestState now (pre ++ post) :=
    ingest_remove_line now pre post l
      (fun st => ingestStep_skip now st l h)
  constructor
  · unfold get_claude_session_data_claude_monitor_exact ingest
    rw [hst]
  · rfl

/-- C10 witness at a concrete malformed line. -/
theorem C10_witness :
    get_claude_session_data_claude_monitor_exact 1000
          ([exLine] ++ exLineBad :: [])
        = get_claude_session_data_claude_monitor_exact 1000 ([exLine] ++ []) ∧
      get_claude_session_data_claude_monitor_exact 1000 []
        = SessionResult.noData :=
  C10_never_fails 1000 [exLine] [] exLineBad (Or.inl rfl)

/-! ### Claims C2 and C8: deduplication -/

/-- C2 counterexample: a zero-token event with key `m:r` followed by a
500-token event with the same key.  The key was previously seen during the
run (on the first line), yet the second event is ingested rather than
dropped, because the code registers a key only when an event is actually
retained. -/
theorem C2_counterexample :
    ingest 1000 [exLineZero, exLine]
        = [{ timestamp := 0, input_tokens := 500, output_tokens := 0,
             total_tokens := 500 }] ∧
      ingest 1000 [exLineZero] = [] :=
  ⟨rfl, rfl⟩

/-- A processed line either leaves the state unchanged or leaves its own
dedup key in the processed set. -/
theorem ingestStep_cases (now : Int) (st : List String × List UsageEntry)
    (l : RawLine) (s : String) (hs : hashOf l = some s) :
    ingestStep now st l = st ∨ s ∈ (ingestStep now st l).1 := by
  unfold ingestStep keepEntry
  rw [hs]
  repeat' split
  all_goals first
  | exact Or.inl rfl
  | (right; simp_all)

/-- C2 (amended): an event whose dedup key was registered by a previously
retained event is dropped entirely, before its token counts are even read;
keys are registered only when an event passes the usage and zero-token
filters, so a key carried only by previously discarded events does not
cause dropping. -/
theorem C2_amended_registered_key_drops (now : Int)
    (pre post : List RawLine) (l : RawLine) (s : String)
    (hs : hashOf l = some s) (hseen : s ∈ (ingestState now pre).1) :
    ingest now (pre ++ l :: post) = ingest now (pre ++ post) := by
  unfold ingest
  rw [ingestState_append, ingestState_append]
  simp only [List.foldl_cons,
    ingestStep_seen now (ingestState now pre) l s hs hseen]

/-- C2 witness: once the 500-token event registered `m:r`, a later event
with the same key and different token counts is dropped. -/
theorem C2_witness :
    ingest 1000 ([exLine] ++ exLineOther :: [])
      = ingest 1000 ([exLine] ++ []) :=
  C2_amended_registered_key_drops 1000 [exLine] [] exLineOther
    ("m" ++ ":" ++ "r") rfl (by simp [ingestState, ingestStep, exLine,
      seenDup, hashOf, keepEntry])

/-- Processing the same keyed line twice from the same state is the same as
processing it once. -/
theorem ingestStep_twice (now : Int) (st : List String × List UsageEntry)
    (l : RawLine) (s : String) (hs : hashOf l = some s) :
    ingestStep now (ingestStep now st l) l = ingestStep now st l := by
  rcases ingestStep_cases now st l s hs with h | h
  · rw [h, h]
  · exact ingestStep_seen now _ l s hs h

/-- C8: ingesting two identical log lines that carry a dedup key yields the
same `all_entries` — hence identical block totals — as ingesting the line
once. -/
theorem C8_dedup_idempotent (now : Int) (l : RawLine)
    (h : (hashOf l).isSome = true) :
    ingest now [l, l] = ingest now [l] ∧
      (buildBlocks (sortEntries (ingest now [l, l]))).map
          (fun b => b.total_tokens)
        = (buildBlocks (sortEntries (ingest now [l]))).map
          (fun b => b.total_tokens) := by
  obtain ⟨s, hs⟩ := Option.isSome_iff_exists.mp h
  have key : ingestState now [l, l] = ingestState now [l] := by
    unfold ingestState
    simp only [List.foldl_cons, List.foldl_nil]
    exact ingestStep_twice now ([], []) l s hs
  unfold ingest
  rw [key]
  exact ⟨rfl, rfl⟩

/-- C8 witness at a concrete keyed line. -/
theorem C8_witness :
    ingest 1000 [exLine, exLine] = ingest 1000 [exLine] ∧
      (buildBlocks (sortEntries (ingest 1000 [exLine, exLine]))).map
          (fun b => b.total_tokens)
        = (buildBlocks (sortEntries (ingest 1000 [exLine]))).map
          (fun b => b.total_tokens) :=
  C8_dedup_idempotent 1000 exLine rfl

/-! ### Claim C5: the active-marking condition -/

/-- C5: a block (with its flag still unset, as after construction) is marked
active by the marking pass iff its fixed window has not elapsed
(`end_time > now`), it has at least 3 entries, and its most recent entry is
at most 30 minutes old; with two entries it is not active, and a third
entry satisfying the other conditions flips it to active. -/
theorem C5_active_iff (now : Int) (b : UsageBlock)
    (hb : b.is_active = false) :
    (markOne now b).is_active = true ↔
      (now < b.end_time ∧ 3 ≤ b.entries.length ∧
        ∃ last, b.entries.getLast? = some last ∧
          now - last.timestamp ≤ 1800) := by
  rw [markOne_is_active now b hb]
  unfold isActiveCond
  cases hl : b.entries.getLast? with
  | none => simp [hl]
  | some last =>
    have hne : b.entries ≠ [] := by
      intro h0
      rw [h0] at hl
      simp at hl
    simp [hl, hne]
    exact and_assoc

/-- C5 witness: the three-entry block of the spec's concrete scenario is
marked active two minutes after its last entry. -/
theorem C5_witness : (markOne 40320 exBlock3).is_active = true :=
  (C5_active_iff 40320 exBlock3 rfl).mpr
    ⟨by decide, by decide, mkE 40200 500, by decide, by decide⟩

/-! ### Claim C7: the idle-gap split -/

/-- C7: two qualifying events three hours apart produce two blocks even
though both lie within five hours of the first; in general an event whose
gap from the last entry of the current block meets the two-hour threshold
starts a new block instead of extending the current one. -/
theorem C7_idle_gap_split :
    (∀ e1 e2 : UsageEntry, e2.timestamp = e1.timestamp + 10800 →
        (buildBlocks [e1, e2]).length = 2) ∧
      (∀ (blocks : List UsageBlock) (b : UsageBlock) (e : UsageEntry)
          (rest : List UsageEntry), gapTrigger b e.timestamp = true →
          buildLoop blocks (some b) (e :: rest)
            = buildLoop (pushBlock blocks b) (some (newBlock e)) rest) := by
  constructor
  · intro e1 e2 h
    have hg : gapTrigger (newBlock e1) e2.timestamp = true := by
      simp only [gapTrigger, newBlock, addEntry, emptyBlock, h]
      simp
    simp only [buildBlocks, buildLoop, hg, Bool.or_true, if_true]
    simp [closeOut, pushBlock, newBlock, addEntry, emptyBlock,
      finalizeBlock]
  · intro blocks b e rest hg
    simp [buildLoop, hg]

/-- C7 witness at concrete events 0 and 10800. -/
theorem C7_witness : (buildBlocks [mkE 0 5, mkE 10800 5]).length = 2 :=
  C7_idle_gap_split.1 (mkE 0 5) (mkE 10800 5) rfl

/-! ### Python max by start_time -/

theorem maxByStart_spec (rest : List UsageBlock) (b : UsageBlock) :
    maxByStart b rest ∈ b :: rest ∧
      ∀ x ∈ b :: rest, x.start_time ≤ (maxByStart b rest).start_time := by
  induction rest generalizing b with
  | nil => simp [maxByStart]
  | cons y ys ih =>
    by_cases hc : b.start_time < y.start_time
    · have step : maxByStart b (y :: ys) = maxByStart y ys := by
        unfold maxByStart
        simp [List.foldl_cons, hc]
      obtain ⟨ihmem, ihge⟩ := ih y
      refine ⟨?_, ?_⟩
      · rw [step]
        rcases List.mem_cons.mp ihmem with h | h
        · rw [h]; simp
        · simp [h]
      · intro x hx
        rw [step]
        rcases List.mem_cons.mp hx with hxb | hx2
        · subst hxb
          exact le_trans (le_of_lt hc) (ihge y (by simp))
        · rcases List.mem_cons.mp hx2 with hxy | hxys
          · subst hxy
            exact ihge x (by simp)
          · exact ihge x (by simp [hxys])
    · have step : maxByStart b (y :: ys) = maxByStart b ys := by
        unfold maxByStart
        simp [List.foldl_cons, hc]
      obtain ⟨ihmem, ihge⟩ := ih b
      refine ⟨?_, ?_⟩
      · rw [step]
        rcases List.mem_cons.mp ihmem with h | h
        · rw [h]; simp
        · simp [h]
      · intro x hx
        rw [step]
        rcases List.mem_cons.mp hx with hxb | hx2
        · subst hxb
          exact ihge x (by simp)
        · rcases List.mem_cons.mp hx2 with hxy | hxys
          · subst hxy
            exact le_trans (le_of_not_lt hc) (ihge b (by simp))
          · exact ihge x (by simp [hxys])

/-! ### Claim C6: selection outcomes -/

/-- C6: `selectActive` has exactly three outcomes — the qualifying block
with the latest `start_time` as "active" when one qualifies; otherwise the
block with the latest `start_time` as "expired" (carrying that block's
totals) when the block list is non-empty; otherwise "no data".  The
selected block is a member of the corresponding list and its `start_time`
dominates every other member's (Python's `max` keeps the first maximal
element, so the pick is deterministic). -/
theorem C6_select_outcomes (now : Int) (blocks : List UsageBlock) :
    (blocks = [] → selectActive now blocks = SessionResult.noData) ∧
      (∀ b brest, markActive now blocks = b :: brest →
        (markActive now blocks).filter (fun x => x.is_active) = [] →
        selectActive now blocks
            = SessionResult.expired 100 (maxByStart b brest).total_tokens ∧
          maxByStart b brest ∈ markActive now blocks ∧
          ∀ x ∈ markActive now blocks,
            x.start_time ≤ (maxByStart b brest).start_time) ∧
      (∀ a arest,
        (markActive now blocks).filter (fun x => x.is_active) = a :: arest →
        selectActive now blocks
            = SessionResult.active (maxByStart a arest).end_time
                (((maxByStart a arest).total_tokens : ℚ) / 88000 * 100)
                (maxByStart a arest).total_tokens (maxByStart a arest).id
                (markActive now blocks).length ∧
          maxByStart a arest
              ∈ (markActive now blocks).filter (fun x => x.is_active) ∧
          ∀ x ∈ (markActive now blocks).filter (fun x => x.is_active),
            x.start_time ≤ (maxByStart a arest).start_time) := by
  refine ⟨?_, ?_, ?_⟩
  · intro h
    subst h
    rfl
  · intro b brest hm hf
    refine ⟨?_, ?_, ?_⟩
    · unfold selectActive
      dsimp only
      rw [hf, hm]
    · rw [hm]
      exact (maxByStart_spec brest b).1
    · rw [hm]
      exact (maxByStart_spec brest b).2
  · intro a arest hf
    refine ⟨?_, ?_, ?_⟩
    · unfold selectActive
      dsimp only
      rw [hf]
    · rw [hf]
      exact (maxByStart_spec arest a).1
    · rw [hf]
      exact (maxByStart_spec arest a).2

/-- C6 witness: a single finished block whose window elapsed is reported as
expired with its own totals, never as no-data. -/
theorem C6_witness :
    selectActive 100000 [exBlock3]
        = SessionResult.expired 100 (maxByStart exBlock3 []).total_tokens ∧
      maxByStart exBlock3 [] ∈ markActive 100000 [exBlock3] ∧
      ∀ x ∈ markActive 100000 [exBlock3],
        x.start_time ≤ (maxByStart exBlock3 []).start_time :=
  (C6_select_outcomes 100000 [exBlock3]).2.1 exBlock3 [] rfl rfl

/-! ### Claim C3: how many blocks can be active -/

theorem isActiveCond_finalize (now : Int) (b : UsageBlock) :
    isActiveCond now (finalizeBlock b) = isActiveCond now b := rfl

/-- C3 counterexample: with future-dated events (three at the epoch, three
at the five-hour mark, evaluated at `now = 100`) the marking pass flags two
blocks active at once. -/
theorem C3_counterexample :
    ((markActive 100 (buildBlocks exEntries2)).filter
        (fun b => b.is_active)).length = 2 := rfl

/-- Every block the construction loop ever finishes fails the active
condition, provided every remaining entry's timestamp is at most `now`:
a block is only closed when an entry falls at or beyond its `end_time`
(which therefore is not in the future) or after a two-hour silence
(so its last entry is over 30 minutes old). -/
theorem buildLoop_inactive_le_one (now : Int) :
    ∀ (entries : List UsageEntry) (blocks : List UsageBlock)
      (cur : Option UsageBlock),
      (∀ e ∈ entries, e.timestamp ≤ now) →
      (∀ b ∈ blocks, isActiveCond now b = false) →
      ((buildLoop blocks cur entries).filter
          (fun b => isActiveCond now b)).length ≤ 1 := by
  intro entries
  induction entries with
  | nil =>
    intro blocks cur _ hblocks
    have hfilter : blocks.filter (fun b => isActiveCond now b) = [] :=
      List.filter_eq_nil_iff.mpr (fun a ha => by simp [hblocks a ha])
    cases cur with
    | none => simp [buildLoop, closeOut, hfilter]
    | some b =>
      simp only [buildLoop, closeOut]
      unfold pushBlock
      split
      · simp [hfilter]
      · rw [List.filter_append, hfilter]
        cases h : isActiveCond now (finalizeBlock b) <;>
          simp [List.filter_cons, h]
  | cons e rest ih =>
    intro blocks cur hall hblocks
    have he : e.timestamp ≤ now := hall e (by simp)
    have hrest : ∀ x ∈ rest, x.timestamp ≤ now :=
      fun x hx => hall x (by simp [hx])
    cases cur with
    | none =>
      simpa only [buildLoop] using ih blocks (some (newBlock e)) hrest hblocks
    | some b =>
      simp only [buildLoop]
      split
      · next hcond =>
        apply ih _ _ hrest
        intro x hx
        unfold pushBlock at hx
        split at hx
        · exact hblocks x hx
        · rcases List.mem_append.mp hx with hx | hx
          · exact hblocks x hx
          · have hxe : x = finalizeBlock b := by simpa using hx
            subst hxe
            rw [isActiveCond_finalize]
            rw [Bool.or_eq_true] at hcond
            rcases hcond with hc | hc
            · have hend : b.end_time ≤ now :=
                le_trans (of_decide_eq_true hc) he
              unfold isActiveCond
              simp [not_lt.mpr hend]
            · unfold gapTrigger at hc
              cases hl : b.entries.getLast? with
              | none => rw [hl] at hc; simp at hc
              | some last =>
                rw [hl] at hc
                have h7 : (7200 : Int) ≤ e.timestamp - last.timestamp :=
                  of_decide_eq_true hc
                have hrec : ¬ (now - last.timestamp ≤ 1800) := by omega
                unfold isActiveCond
                rw [hl]
                simp [hrec]
      · next hcond =>
        exact ih _ _ hrest hblocks

/-- The construction loop never sets `is_active`. -/
theorem buildLoop_flag :
    ∀ (entries : List UsageEntry) (blocks : List UsageBlock)
      (cur : Option UsageBlock),
      (∀ b ∈ blocks, b.is_active = false) →
      (∀ c, cur = some c → c.is_active = false) →
      ∀ b ∈ buildLoop blocks cur entries, b.is_active = false := by
  intro entries
  induction entries with
  | nil =>
    intro blocks cur hblocks hcur b hb
    cases cur with
    | none => exact hblocks b hb
    | some c =>
      simp only [buildLoop, closeOut] at hb
      unfold pushBlock at hb
      split at hb
      · exact hblocks b hb
      · rcases List.mem_append.mp hb with hx | hx
        · exact hblocks b hx
        · have hxe : b = finalizeBlock c := by simpa using hx
          subst hxe
          exact hcur c rfl
  | cons e rest ih =>
    intro blocks cur hblocks hcur b hb
    cases cur with
    | none =>
      simp only [buildLoop] at hb
      refine ih blocks (some (newBlock e)) hblocks ?_ b hb
      intro c hc
      cases hc
      rfl
    | some c =>
      simp only [buildLoop] at hb
      split at hb
      · refine ih _ (some (newBlock e)) ?_ ?_ b hb
        · intro x hx
          unfold pushBlock at hx
          split at hx
          · exact hblocks x hx
          · rcases List.mem_append.mp hx with hx | hx
            · exact hblocks x hx
            · have hxe : x = finalizeBlock c := by simpa using hx
              subst hxe
              exact hcur c rfl
        · intro x hx
          cases hx
          rfl
      · refine ih blocks (some (addEntry c e)) hblocks ?_ b hb
        intro x hx
        cases hx
        exact hcur c rfl

/-- C3 (amended): when no event carries a future timestamp (every entry's
timestamp is at most `now`), the marking pass flags at most one block
active; the "exactly zero or one" claim fails only on future-dated logs,
as the counterexample shows. -/
theorem C3_amended_at_most_one_active (now : Int)
    (entries : List UsageEntry)
    (hall : ∀ e ∈ entries, e.timestamp ≤ now) :
    ((markActive now (buildBlocks entries)).filter
        (fun b => b.is_active)).length ≤ 1 := by
  have hflag : ∀ b ∈ buildBlocks entries, b.is_active = false :=
    buildLoop_flag entries [] none (fun b hb => by simp at hb) (by simp)
  rw [activeBlocks_len now (buildBlocks entries) hflag]
  exact buildLoop_inactive_le_one now entries [] none hall
    (fun b hb => by simp at hb)

/-- C3 witness: the spec's concrete scenario, all events in the past. -/
theorem C3_witness :
    ((markActive 40320 (buildBlocks exEntries1)).filter
        (fun b => b.is_active)).length ≤ 1 :=
  C3_amended_at_most_one_active 40320 exEntries1 (by decide)

/-! ### Claim C4: the window partition invariant -/

/-- Concatenating the entries of all produced blocks, in order, gives back
exactly the input entry list: no entry is dropped or duplicated. -/
theorem buildLoop_join :
    ∀ (entries : List UsageEntry) (blocks : List UsageBlock)
      (cur : Option UsageBlock),
      ((buildLoop blocks cur entries).map (fun b => b.entries)).flatten
        = ((blocks.map (fun b => b.entries)).flatten)
            ++ (match cur with | some c => c.entries | none => [])
            ++ entries := by
  intro entries
  induction entries with
  | nil =>
    intro blocks cur
    cases cur with
    | none => simp [buildLoop, closeOut]
    | some b =>
      simp only [buildLoop, closeOut]
      unfold pushBlock
      split
      · next hemp =>
        simp [List.isEmpty_iff.mp hemp]
      · simp [finalizeBlock]
  | cons e rest ih =>
    intro blocks cur
    cases cur with
    | none =>
      simp only [buildLoop]
      rw [ih]
      simp [newBlock, addEntry, emptyBlock]
    | some b =>
      simp only [buildLoop]
      split
      · rw [ih]
        unfold pushBlock
        split
        · next hemp =>
          simp [newBlock, addEntry, emptyBlock, List.isEmpty_iff.mp hemp]
        · simp [newBlock, addEntry, emptyBlock, finalizeBlock]
      · rw [ih]
        simp [addEntry]

/-- Every block the loop produces keeps all its entries inside
`[start_time, end_time)`, given sorted input and a well-placed current
block. -/
theorem buildLoop_inWindow :
    ∀ (entries : List UsageEntry) (blocks : List UsageBlock)
      (cur : Option UsageBlock),
      List.Pairwise (fun a b => a.timestamp ≤ b.timestamp) entries →
      (∀ b ∈ blocks, inWindow b) →
      (∀ c, cur = some c → inWindow c ∧ c.entries ≠ [] ∧
        ∀ e' ∈ c.entries, ∀ f ∈ entries, e'.timestamp ≤ f.timestamp) →
      ∀ b ∈ buildLoop blocks cur entries, inWindow b := by
  intro entries
  induction entries with
  | nil =>
    intro blocks cur _ hblocks hcur b hb
    cases cur with
    | none => exact hblocks b hb
    | some c =>
      simp only [buildLoop, closeOut] at hb
      unfold pushBlock at hb
      split at hb
      · exact hblocks b hb
      · rcases List.mem_append.mp hb with hx | hx
        · exact hblocks b hx
        · have hxe : b = finalizeBlock c := by simpa using hx
          subst hxe
          exact (hcur c rfl).1
  | cons e rest ih =>
    intro blocks cur hsort hblocks hcur b hb
    have hhead : ∀ f ∈ rest, e.timestamp ≤ f.timestamp :=
      (List.pairwise_cons.mp hsort).1
    have hsort' := (List.pairwise_cons.mp hsort).2
    have hnewWin : inWindow (newBlock e) := by
      intro x hx
      have hx' : x = e := by
        simpa [newBlock, addEntry, emptyBlock] using hx
      rw [hx']
      refine ⟨?_, ?_⟩
      · simpa [newBlock, addEntry, emptyBlock] using hourFloor_le e.timestamp
      · have h1 := lt_hourFloor_add e.timestamp
        simp only [newBlock, addEntry, emptyBlock]
        omega
    have hnewCur : ∀ c, some (newBlock e) = some c → inWindow c ∧
        c.entries ≠ [] ∧
        ∀ e' ∈ c.entries, ∀ f ∈ rest, e'.timestamp ≤ f.timestamp := by
      intro c hc
      cases hc
      refine ⟨hnewWin, by simp [newBlock, addEntry, emptyBlock], ?_⟩
      intro x hx f hf
      have hxe : x = e := by
        simpa [newBlock, addEntry, emptyBlock] using hx
      rw [hxe]
      exact hhead f hf
    cases cur with
    | none =>
      simp only [buildLoop] at hb
      exact ih blocks (some (newBlock e)) hsort' hblocks hnewCur b hb
    | some c =>
      simp only [buildLoop] at hb
      split at hb
      · refine ih _ (some (newBlock e)) hsort' ?_ hnewCur b hb
        intro x hx
        unfold pushBlock at hx
        split at hx
        · exact hblocks x hx
        · rcases List.mem_append.mp hx with hx | hx
          · exact hblocks x hx
          · have hxe : x = finalizeBlock c := by simpa using hx
            subst hxe
            exact (hcur c rfl).1
      · next hcond =>
        refine ih blocks (some (addEntry c e)) hsort' hblocks ?_ b hb
        intro c' hc'
        cases hc'
        obtain ⟨hwin, hne, horder⟩ := hcur c rfl
        refine ⟨?_, by simp [addEntry], ?_⟩
        · intro x hx
          have hx' : x ∈ c.entries ∨ x = e := by
            simpa [addEntry] using hx
          rcases hx' with hx1 | hx2
          · exact hwin x hx1
          · rw [hx2]
            obtain ⟨e0, he0⟩ := List.exists_mem_of_ne_nil c.entries hne
            have h1 : c.start_time ≤ e0.timestamp := (hwin e0 he0).1
            have h2 : e0.timestamp ≤ e.timestamp :=
              horder e0 he0 e (by simp)
            have h3 : ¬ (c.end_time ≤ e.timestamp) := by
              intro hle
              apply hcond
              simp [hle]
            have h4 : (addEntry c e).end_time = c.end_time := rfl
            have h5 : (addEntry c e).start_time = c.start_time := rfl
            exact ⟨by omega, by omega⟩
        · intro x hx f hf
          have hx' : x ∈ c.entries ∨ x = e := by
            simpa [addEntry] using hx
          rcases hx' with hx1 | hx2
          · exact horder x hx1 f (by simp [hf])
          · rw [hx2]
            exact hhead f hf

/-- C4: for a timestamp-sorted entry list, `buildBlocks` places every event
in exactly one block — concatenating the blocks' entry lists returns the
input exactly, so nothing is silently dropped — and every event's timestamp
lies in `[start_time, end_time)` of its block; an event that triggers an
idle-gap split satisfies this within the new block it starts. -/
theorem C4_partition (entries : List UsageEntry)
    (hsorted :
      List.Pairwise (fun a b => a.timestamp ≤ b.timestamp) entries) :
    ((buildBlocks entries).map (fun b => b.entries)).flatten = entries ∧
      ∀ b ∈ buildBlocks entries, inWindow b := by
  constructor
  · simpa using buildLoop_join entries [] none
  · exact buildLoop_inWindow entries [] none hsorted
      (fun b hb => by simp at hb) (fun c hc => by cases hc)

/-- C4 witness at the sorted three-entry scenario. -/
theorem C4_witness :
    ((buildBlocks exEntries1).map (fun b => b.entries)).flatten = exEntries1 ∧
      ∀ b ∈ buildBlocks exEntries1, inWindow b :=
  C4_partition exEntries1 (by decide)
